import Mathlib

/-!
Verification of the core of the `giga` terminal text editor against its
natural-language specification.

The development shallowly embeds the relevant Rust source files:

* `src/editor/view/file/mod.rs` — the `File` structure: a rope of characters
  (modelled as `List Char`) with line-addressed edit operations
  (`line`, `insert`, `delete`, `split_line`, `delete_line`).
* `src/editor/view/mod.rs` — the `View` structure: viewport state over a file
  (`navigate`, `insert`, `insert_new_line`, `delete`, `delete_line`, `line`).
* `src/editor/mod.rs` — the `Editor`: mode, file name, refresh orders, and
  `Editor::execute` over the `Command` algebra of `src/editor/command.rs`.
* `src/main.rs` — command-line argument handling (`usage`).

Machine-integer conventions: `usize` is modelled as `Nat` and `isize` as `Int`.
Rust's `isize::saturating_add` is modelled by `satAdd`, which saturates at the
64-bit bounds, and the `as usize` casts in the scrolling code are modelled by
`asUsize`, which is exact for non-negative values and adds `2 ^ 64` for
negative values (two's complement), exactly as the Rust cast behaves on the
`isize` range.  The widening casts `usize as isize` are modelled as exact
coercions `Nat → Int`, which is faithful for every state the program can
build (all such quantities are bounded by the terminal size or the file size,
far below `2 ^ 63`; the spec's §4.2 makes the same no-overflow assumption).
The one `usize` addition that genuinely can overflow — `y + self.start_line`
in `View::navigate_x`, reachable once a degenerate window has set `cursor.y`
to `2 ^ 64 - 1` — is modelled by `wrapAdd`, the release-mode wrapping
semantics (a debug build panics there instead).

Rope operations that can panic (`Rope::line_to_char` on an out-of-bounds line
index, slice indexing with a start beyond the end) are modelled with `Option`:
`none` is a panic.
-/

namespace Giga

/-- Text content of the rope in `File` (`src/editor/view/file/mod.rs`):
a flat sequence of characters, lines separated by newline characters. -/
abbrev Text := List Char

/-- Model of ropey's `Rope::len_lines`: one more than the number of newline
characters.  (The empty rope has one line; a trailing newline opens a final
empty line.) -/
def lenLines (s : Text) : Nat := s.count '\n' + 1

/-- Model of ropey's `Rope::line_to_char`: the character index at which line
`i` starts (the index one past the `i`-th newline).  For `i ≥ len_lines` this
total model returns `s.length`; the one call site that can actually reach
ropey's panicking range (`delete_line`) guards for it explicitly. -/
def lineToChar : Text → Nat → Nat
  | _, 0 => 0
  | [], _ + 1 => 0
  | c :: s, i + 1 => if c = '\n' then 1 + lineToChar s i else 1 + lineToChar s (i + 1)

/-- Model of ropey's `Rope::line`: the chars of line `i`, including the
trailing newline for every line but the last. -/
def ropeLine (s : Text) (i : Nat) : Text :=
  (s.drop (lineToChar s i)).take (lineToChar s (i + 1) - lineToChar s i)

/-- Model of Rust's `str::trim_end_matches('\n')` on a line. -/
def dropTrailingNL (l : Text) : Text :=
  (l.reverse.dropWhile (fun c => c = '\n')).reverse

/-- Model of ropey's `Rope::remove(a..b)` (for a valid range). -/
def removeRange (s : Text) (a b : Nat) : Text := s.take a ++ s.drop b

/-- Model of ropey's `Rope::insert_char(i, c)`. -/
def insertAt (s : Text) (i : Nat) (c : Char) : Text := s.take i ++ c :: s.drop i

namespace File

/-- `File::line` (`src/editor/view/file/mod.rs:69`): `None` iff the index is
out of bounds, otherwise the line with its trailing newline stripped. -/
def line (s : Text) (index : Nat) : Option Text :=
  if lenLines s ≤ index then none
  else some (dropTrailingNL (ropeLine s index))

/-- `File::insert` (`src/editor/view/file/mod.rs:92`): insert a char at
`(line, col)`; no-op when the line is out of bounds or `col` is past the
rope line's length (which includes the trailing newline). -/
def insert (s : Text) (line col : Nat) (c : Char) : Text :=
  if lenLines s ≤ line then s
  else if (ropeLine s line).length < col then s
  else insertAt s (lineToChar s line + col) c

/-- `File::delete` (`src/editor/view/file/mod.rs:109`): backspace at
`(line, col)`.  `col == 0` joins the line with the previous one (unless it is
the first line); `0 < col ≤ line_len` removes the char at `col - 1`, where
`line_len` is the rope line's length including its trailing newline. -/
def delete (s : Text) (line col : Nat) : Text :=
  if lenLines s ≤ line then s
  else if col = 0 then
    if 0 < line then removeRange s (lineToChar s line - 1) (lineToChar s line) else s
  else if col ≤ (ropeLine s line).length then
    removeRange s (lineToChar s line + col - 1) (lineToChar s line + col)
  else s

/-- `File::split_line` (`src/editor/view/file/mod.rs:132`): insert a newline
at `(line, col)`; no-op when out of bounds. -/
def split_line (s : Text) (line col : Nat) : Text :=
  if lenLines s ≤ line then s
  else if (ropeLine s line).length < col then s
  else insertAt s (lineToChar s line + col) '\n'

/-- `File::delete_line` (`src/editor/view/file/mod.rs:144`): remove the char
range from the start of line `line` to the start of line `line + 1`.  The
source has no bounds check; ropey's `line_to_char(line + 1)` panics when
`line + 1 > len_lines()`, i.e. whenever `line ≥ len()`, modelled as `none`. -/
def delete_line (s : Text) (line : Nat) : Option Text :=
  if lenLines s < line + 1 then none
  else some (removeRange s (lineToChar s line) (lineToChar s (line + 1)))

/-- Tab rule of `File::from_string` (`src/editor/view/file/mod.rs:58`):
every tab is replaced by four spaces before ingestion. -/
def replaceTabs : Text → Text
  | [] => []
  | c :: s =>
      if c = '\t' then ' ' :: ' ' :: ' ' :: ' ' :: replaceTabs s
      else c :: replaceTabs s

end File

/-- The stripped lines of a text: the maximal newline-free segments.
`linesOf s` always has `lenLines s` entries. -/
def linesOf : Text → List Text
  | [] => [[]]
  | c :: s =>
      if c = '\n' then [] :: linesOf s
      else
        match linesOf s with
        | l :: ls => (c :: l) :: ls
        | [] => [[c]]

/-- Join the line at index `i + 1` onto the end of the line at index `i`,
removing it from the list. -/
def joinAt (ls : List Text) (i : Nat) : List Text :=
  ls.take i ++ [ls.getD i [] ++ ls.getD (i + 1) []] ++ ls.drop (i + 2)

/-! ### Basic lemmas about the line structure of a text -/

theorem lenLines_pos (s : Text) : 0 < lenLines s := Nat.succ_pos _

theorem linesOf_ne_nil (s : Text) : linesOf s ≠ [] := by
  induction s with
  | nil => simp [linesOf]
  | cons c s ih =>
    simp only [linesOf]
    split
    · simp
    · split
      · simp
      · simp

theorem lenLines_append_nl {l₀ : Text} (t : Text) (h : '\n' ∉ l₀) :
    lenLines (l₀ ++ '\n' :: t) = lenLines t + 1 := by
  simp [lenLines, List.count_append, List.count_cons, List.count_eq_zero.mpr h]

theorem lineToChar_zero (s : Text) : lineToChar s 0 = 0 := by
  cases s <;> rfl

theorem lineToChar_append_nl {l₀ : Text} (t : Text) (h : '\n' ∉ l₀) (i : Nat) :
    lineToChar (l₀ ++ '\n' :: t) (i + 1) = l₀.length + 1 + lineToChar t i := by
  induction l₀ with
  | nil => simp [lineToChar]
  | cons c l₀ ih =>
    have hc : c ≠ '\n' := fun hc => h (by simp [hc])
    have h' : '\n' ∉ l₀ := fun hm => h (by simp [hm])
    have e : lineToChar ((c :: l₀) ++ '\n' :: t) (i + 1)
        = 1 + lineToChar (l₀ ++ '\n' :: t) (i + 1) := by
      simp only [List.cons_append, lineToChar, if_neg hc, List.append_eq]
    rw [e, ih h']
    simp only [List.length_cons]
    omega

theorem lineToChar_nlfree {s : Text} (h : '\n' ∉ s) (i : Nat) :
    lineToChar s (i + 1) = s.length := by
  induction s with
  | nil => rfl
  | cons c s ih =>
    have hc : c ≠ '\n' := fun hc => h (by simp [hc])
    have h' : '\n' ∉ s := fun hm => h (by simp [hm])
    simp only [lineToChar, if_neg hc, ih h', List.length_cons]
    omega

theorem lineToChar_pos {t : Text} (ht : t ≠ []) (i : Nat) :
    0 < lineToChar t (i + 1) := by
  cases t with
  | nil => exact absurd rfl ht
  | cons c s => simp only [lineToChar]; split <;> omega

theorem ropeLine_zero_append {l₀ : Text} (t : Text) (h : '\n' ∉ l₀) :
    ropeLine (l₀ ++ '\n' :: t) 0 = l₀ ++ ['\n'] := by
  simp only [ropeLine, lineToChar_zero, List.drop_zero, Nat.sub_zero,
    lineToChar_append_nl t h 0, lineToChar_zero]
  rw [List.take_append_eq_append_take, List.take_of_length_le (by omega)]
  simp

theorem ropeLine_succ_append {l₀ : Text} (t : Text) (h : '\n' ∉ l₀) (i : Nat) :
    ropeLine (l₀ ++ '\n' :: t) (i + 1) = ropeLine t i := by
  have e1 := lineToChar_append_nl t h i
  have e2 := lineToChar_append_nl t h (i + 1)
  simp only [ropeLine, e1, e2]
  rw [List.drop_append_eq_append_drop, List.drop_of_length_le (by omega)]
  have h1 : l₀.length + 1 + lineToChar t i - l₀.length = lineToChar t i + 1 := by omega
  have h2 : l₀.length + 1 + lineToChar t (i + 1) - (l₀.length + 1 + lineToChar t i)
      = lineToChar t (i + 1) - lineToChar t i := by omega
  rw [h1, h2, List.nil_append, List.drop_succ_cons]

theorem ropeLine_nlfree {s : Text} (h : '\n' ∉ s) : ropeLine s 0 = s := by
  simp [ropeLine, lineToChar_zero, lineToChar_nlfree h]

theorem dropWhile_nl_eq_self {l : Text} (h : '\n' ∉ l) :
    l.dropWhile (fun c => c = '\n') = l := by
  cases l with
  | nil => rfl
  | cons c s =>
    have hc : c ≠ '\n' := fun hc => h (by simp [hc])
    simp [List.dropWhile_cons, hc]

theorem dropTrailingNL_nlfree {l : Text} (h : '\n' ∉ l) : dropTrailingNL l = l := by
  have h' : '\n' ∉ l.reverse := by simpa using h
  simp [dropTrailingNL, dropWhile_nl_eq_self h']

theorem dropTrailingNL_append_nl {l : Text} (h : '\n' ∉ l) :
    dropTrailingNL (l ++ ['\n']) = l := by
  have h' : '\n' ∉ l.reverse := by simpa using h
  simp [dropTrailingNL, List.dropWhile_cons, dropWhile_nl_eq_self h']

theorem linesOf_append_nl {l₀ : Text} (t : Text) (h : '\n' ∉ l₀) :
    linesOf (l₀ ++ '\n' :: t) = l₀ :: linesOf t := by
  induction l₀ with
  | nil => simp [linesOf]
  | cons c l₀ ih =>
    have hc : c ≠ '\n' := fun hc => h (by simp [hc])
    have h' : '\n' ∉ l₀ := fun hm => h (by simp [hm])
    simp [linesOf, hc, ih h']

theorem linesOf_nlfree {s : Text} (h : '\n' ∉ s) : linesOf s = [s] := by
  induction s with
  | nil => rfl
  | cons c s ih =>
    have hc : c ≠ '\n' := fun hc => h (by simp [hc])
    have h' : '\n' ∉ s := fun hm => h (by simp [hm])
    simp [linesOf, hc, ih h']

theorem linesOf_prepend_nlfree {l₀ : Text} (t : Text) (h : '\n' ∉ l₀)
    {u : Text} {us : List Text} (ht : linesOf t = u :: us) :
    linesOf (l₀ ++ t) = (l₀ ++ u) :: us := by
  induction l₀ with
  | nil => simpa using ht
  | cons c l₀ ih =>
    have hc : c ≠ '\n' := fun hc => h (by simp [hc])
    have h' : '\n' ∉ l₀ := fun hm => h (by simp [hm])
    simp [linesOf, hc, ih h']

theorem linesOf_length (s : Text) : (linesOf s).length = lenLines s := by
  induction s with
  | nil => rfl
  | cons c s ih =>
    by_cases hc : c = '\n'
    · subst hc
      have h1 : lenLines ('\n' :: s) = lenLines s + 1 := by
        simp [lenLines, List.count_cons]
      rw [h1]
      simp [linesOf, ih]
    · obtain ⟨l, ls, hls⟩ := List.exists_cons_of_ne_nil (linesOf_ne_nil s)
      have h1 : lenLines (c :: s) = lenLines s := by
        simp [lenLines, List.count_cons, hc]
      have h2 : linesOf (c :: s) = (c :: l) :: ls := by
        simp only [linesOf, if_neg hc, hls]
      rw [h1, h2]
      have h3 := ih
      rw [hls] at h3
      simpa using h3

/-- Every text is newline-free or splits off a newline-free first line. -/
theorem text_decomp (s : Text) :
    '\n' ∉ s ∨ ∃ l₀ t, '\n' ∉ l₀ ∧ s = l₀ ++ '\n' :: t := by
  induction s with
  | nil => left; simp
  | cons c s ih =>
    by_cases hc : c = '\n'
    · right; exact ⟨[], s, by simp, by simp [hc]⟩
    · cases ih with
      | inl h =>
        left
        simp only [List.mem_cons, not_or]
        exact ⟨fun h' => hc h'.symm, h⟩
      | inr h =>
        obtain ⟨l₀, t, hl, rfl⟩ := h
        right
        refine ⟨c :: l₀, t, ?_, rfl⟩
        simp only [List.mem_cons, not_or]
        exact ⟨fun h' => hc h'.symm, hl⟩

theorem mem_of_two_lines {s : Text} (h : 2 ≤ lenLines s) : '\n' ∈ s := by
  by_contra hm
  have : s.count '\n' = 0 := List.count_eq_zero.mpr hm
  simp [lenLines, this] at h

/-- `File::line` computes exactly the stripped lines of the text. -/
theorem file_line_eq_linesOf : ∀ (i : Nat) (s : Text), File.line s i = (linesOf s)[i]? := by
  intro i
  induction i with
  | zero =>
    intro s
    rcases text_decomp s with h | ⟨l₀, t, hl, rfl⟩
    · unfold File.line
      rw [if_neg (by have := lenLines_pos s; omega)]
      simp [ropeLine_nlfree h, dropTrailingNL_nlfree h, linesOf_nlfree h]
    · unfold File.line
      rw [if_neg (by have := lenLines_pos (l₀ ++ '\n' :: t); omega)]
      rw [ropeLine_zero_append t hl, dropTrailingNL_append_nl hl, linesOf_append_nl t hl]
      simp
  | succ i ih =>
    intro s
    rcases text_decomp s with h | ⟨l₀, t, hl, rfl⟩
    · have h1 : lenLines s = 1 := by
        simp [lenLines, List.count_eq_zero.mpr h]
      unfold File.line
      rw [if_pos (by omega), linesOf_nlfree h]
      simp
    · rw [linesOf_append_nl t hl]
      unfold File.line
      rw [lenLines_append_nl t hl]
      by_cases hb : lenLines t ≤ i
      · rw [if_pos (by omega)]
        simp only [List.getElem?_cons_succ]
        rw [← ih t]
        unfold File.line
        rw [if_pos hb]
      · rw [if_neg (by omega), ropeLine_succ_append t hl]
        simp only [List.getElem?_cons_succ]
        rw [← ih t]
        unfold File.line
        rw [if_neg (by omega)]

/-- The spec's `line_len(line)`: the length of line `line` with the trailing
newline stripped (0 when the line does not exist). -/
def lineLen (s : Text) (i : Nat) : Nat := ((File.line s i).getD []).length

theorem lenLines_append_nlfree {l₀ : Text} (t : Text) (h : '\n' ∉ l₀) :
    lenLines (l₀ ++ t) = lenLines t := by
  simp [lenLines, List.count_append, List.count_eq_zero.mpr h]

/-! ### Shifting edits past a leading line -/

theorem removeRange_shift (l₀ t : Text) (c : Char) (x y : Nat) :
    removeRange (l₀ ++ c :: t) (l₀.length + 1 + x) (l₀.length + 1 + y)
      = l₀ ++ c :: removeRange t x y := by
  unfold removeRange
  rw [List.take_append_eq_append_take, List.drop_append_eq_append_drop,
    List.take_of_length_le (by omega), List.drop_of_length_le (by omega)]
  have h1 : l₀.length + 1 + x - l₀.length = x + 1 := by omega
  have h2 : l₀.length + 1 + y - l₀.length = y + 1 := by omega
  rw [h1, h2, List.take_succ_cons, List.drop_succ_cons]
  simp

theorem delete_shift {l₀ : Text} (t : Text) (h : '\n' ∉ l₀) (i col : Nat)
    (hex : ¬(i = 0 ∧ col = 0)) :
    File.delete (l₀ ++ '\n' :: t) (i + 1) col = l₀ ++ '\n' :: File.delete t i col := by
  unfold File.delete
  rw [lenLines_append_nl t h]
  by_cases hb : lenLines t ≤ i
  · rw [if_pos (by omega : lenLines t + 1 ≤ i + 1), if_pos hb]
  · rw [if_neg (by omega : ¬ lenLines t + 1 ≤ i + 1), if_neg hb]
    by_cases hcol : col = 0
    · subst hcol
      obtain ⟨j, rfl⟩ : ∃ j, i = j + 1 := by
        cases i with
        | zero => exact absurd ⟨rfl, rfl⟩ hex
        | succ j => exact ⟨j, rfl⟩
      have ht : t ≠ [] := by
        intro he
        rw [he] at hb
        simp [lenLines] at hb
      rw [if_pos rfl, if_pos rfl, if_pos (Nat.succ_pos _), if_pos (Nat.succ_pos _)]
      have e := lineToChar_append_nl t h (j + 1)
      have ha := lineToChar_pos ht j
      rw [e, show l₀.length + 1 + lineToChar t (j + 1) - 1
            = l₀.length + 1 + (lineToChar t (j + 1) - 1) by omega,
        show l₀.length + 1 + lineToChar t (j + 1)
            = l₀.length + 1 + (lineToChar t (j + 1) - 1 + 1) by omega,
        removeRange_shift,
        show lineToChar t (j + 1) - 1 + 1 = lineToChar t (j + 1) by omega]
    · rw [if_neg hcol, if_neg hcol, ropeLine_succ_append t h i]
      by_cases hle : col ≤ (ropeLine t i).length
      · rw [if_pos hle, if_pos hle]
        have e := lineToChar_append_nl t h i
        rw [e, show l₀.length + 1 + lineToChar t i + col - 1
              = l₀.length + 1 + (lineToChar t i + col - 1) by omega,
          show l₀.length + 1 + lineToChar t i + col
              = l₀.length + 1 + (lineToChar t i + col - 1 + 1) by omega,
          removeRange_shift,
          show lineToChar t i + col - 1 + 1 = lineToChar t i + col by omega]
      · rw [if_neg hle, if_neg hle]

theorem delete_join_first {l₀ : Text} (t : Text) (h : '\n' ∉ l₀) :
    File.delete (l₀ ++ '\n' :: t) 1 0 = l₀ ++ t := by
  unfold File.delete
  rw [lenLines_append_nl t h,
    if_neg (by have := lenLines_pos t; omega : ¬ lenLines t + 1 ≤ 1),
    if_pos rfl, if_pos Nat.one_pos, lineToChar_append_nl t h 0, lineToChar_zero]
  unfold removeRange
  rw [show l₀.length + 1 + 0 - 1 = l₀.length by omega,
    show l₀.length + 1 + 0 = l₀.length + 1 by omega,
    List.take_append_eq_append_take, List.take_of_length_le (le_refl _),
    Nat.sub_self, List.take_zero,
    List.drop_append_eq_append_drop, List.drop_of_length_le (by omega),
    show l₀.length + 1 - l₀.length = 1 by omega]
  simp

theorem joinAt_cons (x : Text) (ls : List Text) (i : Nat) :
    joinAt (x :: ls) (i + 1) = x :: joinAt ls i := by
  simp [joinAt]

theorem lineLen_eq (s : Text) (i : Nat) :
    lineLen s i = ((linesOf s).getD i []).length := by
  rw [lineLen, file_line_eq_linesOf, List.getD_eq_getElem?_getD]

theorem delete_oob (s : Text) (line col : Nat) (h : lenLines s ≤ line) :
    File.delete s line col = s := by
  unfold File.delete
  rw [if_pos h]

theorem delete_origin (s : Text) :
    File.delete s 0 0 = s := by
  unfold File.delete
  split
  · rfl
  · rw [if_pos rfl, if_neg (by omega)]

theorem delete_past_rope (s : Text) (line col : Nat)
    (h : (ropeLine s line).length < col) :
    File.delete s line col = s := by
  unfold File.delete
  split
  · rfl
  · rw [if_neg (by omega), if_neg (by omega)]

theorem delete_mid : ∀ (line : Nat) (s : Text) (col : Nat), line < lenLines s → 0 < col →
    col ≤ ((linesOf s).getD line []).length →
    linesOf (File.delete s line col)
      = (linesOf s).set line (((linesOf s).getD line []).eraseIdx (col - 1)) := by
  intro line
  induction line with
  | zero =>
    intro s col h1 h2 h3
    rcases text_decomp s with hf | ⟨l₀, t, hl, rfl⟩
    · rw [linesOf_nlfree hf] at h3 ⊢
      simp only [List.getD_cons_zero] at h3 ⊢
      have hdel : File.delete s 0 col = s.eraseIdx (col - 1) := by
        unfold File.delete
        rw [if_neg (by have := lenLines_pos s; omega), if_neg (by omega),
          if_pos (by rw [ropeLine_nlfree hf]; exact h3), lineToChar_zero]
        rw [List.eraseIdx_eq_take_drop_succ]
        unfold removeRange
        rw [show 0 + col - 1 = col - 1 by omega, show 0 + col = col - 1 + 1 by omega]
      rw [hdel]
      have hfree : '\n' ∉ s.eraseIdx (col - 1) :=
        fun hm => hf ((List.eraseIdx_sublist s (col - 1)).subset hm)
      rw [linesOf_nlfree hfree]
      simp
    · rw [linesOf_append_nl t hl] at h3 ⊢
      simp only [List.getD_cons_zero] at h3 ⊢
      have hdel : File.delete (l₀ ++ '\n' :: t) 0 col
          = l₀.eraseIdx (col - 1) ++ '\n' :: t := by
        unfold File.delete
        rw [if_neg (by have := lenLines_pos (l₀ ++ '\n' :: t); omega), if_neg (by omega),
          ropeLine_zero_append t hl, if_pos (by simp; omega), lineToChar_zero]
        unfold removeRange
        rw [show 0 + col - 1 = col - 1 by omega, show 0 + col = col by omega,
          List.take_append_eq_append_take, List.drop_append_eq_append_drop,
          show col - 1 - l₀.length = 0 by omega, show col - l₀.length = 0 by omega,
          List.take_zero, List.drop_zero, List.append_nil,
          List.eraseIdx_eq_take_drop_succ, show col - 1 + 1 = col by omega]
        simp [List.append_assoc]
      rw [hdel]
      have hfree : '\n' ∉ l₀.eraseIdx (col - 1) :=
        fun hm => hl ((List.eraseIdx_sublist l₀ (col - 1)).subset hm)
      rw [linesOf_append_nl t hfree]
      simp
  | succ n ihn =>
    intro s col h1 h2 h3
    rcases text_decomp s with hf | ⟨l₀, t, hl, rfl⟩
    · exact absurd (mem_of_two_lines (by omega)) hf
    · have hlen : lenLines (l₀ ++ '\n' :: t) = lenLines t + 1 := lenLines_append_nl t hl
      rw [delete_shift t hl n col (fun hc => absurd hc.2 (by omega))]
      rw [linesOf_append_nl (File.delete t n col) hl, linesOf_append_nl t hl]
      rw [linesOf_append_nl t hl] at h3
      simp only [List.getD_cons_succ] at h3
      rw [ihn t col (by omega) h2 h3]
      simp

theorem delete_join_prev : ∀ (line : Nat) (s : Text), 0 < line → line < lenLines s →
    linesOf (File.delete s line 0) = joinAt (linesOf s) (line - 1) ∧
    lenLines (File.delete s line 0) = lenLines s - 1 := by
  intro line
  induction line with
  | zero => intro s h0; exact absurd h0 (by omega)
  | succ n ihn =>
    intro s h0 h1
    rcases text_decomp s with hf | ⟨l₀, t, hl, rfl⟩
    · exact absurd (mem_of_two_lines (by omega)) hf
    · have hlen : lenLines (l₀ ++ '\n' :: t) = lenLines t + 1 := lenLines_append_nl t hl
      cases n with
      | zero =>
        rw [delete_join_first t hl]
        obtain ⟨u, us, hu⟩ := List.exists_cons_of_ne_nil (linesOf_ne_nil t)
        constructor
        · rw [linesOf_prepend_nlfree t hl hu, linesOf_append_nl t hl, hu]
          simp [joinAt]
        · rw [lenLines_append_nlfree t hl, hlen]
          omega
      | succ m =>
        rw [delete_shift t hl (m + 1) 0 (fun hc => absurd hc.1 (by omega))]
        have ih := ihn t (by omega) (by omega)
        constructor
        · rw [linesOf_append_nl (File.delete t (m + 1) 0) hl, linesOf_append_nl t hl,
            ih.1, show m + 1 + 1 - 1 = m + 1 by omega, show m + 1 - 1 = m by omega,
            joinAt_cons]
        · rw [lenLines_append_nl (File.delete t (m + 1) 0) hl, ih.2, hlen]
          omega

theorem delete_join_next : ∀ (line : Nat) (s : Text) (col : Nat),
    line + 1 < lenLines s → col = lineLen s line + 1 →
    linesOf (File.delete s line col) = joinAt (linesOf s) line ∧
    lenLines (File.delete s line col) = lenLines s - 1 := by
  intro line
  induction line with
  | zero =>
    intro s col h1 h2
    rcases text_decomp s with hf | ⟨l₀, t, hl, rfl⟩
    · exact absurd (mem_of_two_lines (by omega)) hf
    · have hlen : lenLines (l₀ ++ '\n' :: t) = lenLines t + 1 := lenLines_append_nl t hl
      have hLL : lineLen (l₀ ++ '\n' :: t) 0 = l₀.length := by
        rw [lineLen_eq, linesOf_append_nl t hl]
        simp
      rw [hLL] at h2
      have hdel : File.delete (l₀ ++ '\n' :: t) 0 col = l₀ ++ t := by
        unfold File.delete
        rw [if_neg (by omega), if_neg (by omega), ropeLine_zero_append t hl,
          if_pos (by simp; omega), lineToChar_zero]
        unfold removeRange
        rw [show 0 + col - 1 = l₀.length by omega, show 0 + col = l₀.length + 1 by omega,
          List.take_append_eq_append_take, List.take_of_length_le (le_refl _),
          Nat.sub_self, List.take_zero,
          List.drop_append_eq_append_drop, List.drop_of_length_le (by omega),
          show l₀.length + 1 - l₀.length = 1 by omega]
        simp
      rw [hdel]
      obtain ⟨u, us, hu⟩ := List.exists_cons_of_ne_nil (linesOf_ne_nil t)
      constructor
      · rw [linesOf_prepend_nlfree t hl hu, linesOf_append_nl t hl, hu]
        simp [joinAt]
      · rw [lenLines_append_nlfree t hl, hlen]
        omega
  | succ n ihn =>
    intro s col h1 h2
    rcases text_decomp s with hf | ⟨l₀, t, hl, rfl⟩
    · exact absurd (mem_of_two_lines (by omega)) hf
    · have hlen : lenLines (l₀ ++ '\n' :: t) = lenLines t + 1 := lenLines_append_nl t hl
      have hLL : lineLen (l₀ ++ '\n' :: t) (n + 1) = lineLen t n := by
        rw [lineLen_eq, lineLen_eq, linesOf_append_nl t hl]
        simp
      rw [hLL] at h2
      rw [delete_shift t hl n col (fun hc => absurd hc.2 (by omega))]
      have ih := ihn t col (by omega) h2
      constructor
      · rw [linesOf_append_nl (File.delete t n col) hl, linesOf_append_nl t hl,
          ih.1, joinAt_cons]
      · rw [lenLines_append_nl (File.delete t n col) hl, ih.2, hlen]
        omega

/-! ### Claim C1 — `File::delete` backspace semantics -/

/-- Claim C1 (amended).  `TextBuffer::delete(line, col)` implements a
backspace at `(line, col)`: it is a no-op when `line ≥ len()` and when
`(line, col) = (0, 0)`; when `col = 0` and `line > 0` it joins line `line`
onto the end of line `line − 1` and the line count decreases by one; when
`0 < col ≤ line_len(line)` it removes exactly the glyph at index `col − 1`
of that line and no other line changes.  Amendment forced by the
counterexample: the no-op zone for large `col` is `col` greater than the
ROPE line length (stripped length plus one for the trailing newline of a
non-last line), not `col > line_len(line)`; at `col = line_len(line) + 1`
on a non-last line the call removes the separating newline, joining line
`line + 1` onto line `line` and decreasing the line count by one. -/
theorem C1_file_delete_amended (s : Text) (line col : Nat) :
    (lenLines s ≤ line → File.delete s line col = s) ∧
    (line = 0 → col = 0 → File.delete s line col = s) ∧
    (0 < line → line < lenLines s → col = 0 →
      linesOf (File.delete s line col) = joinAt (linesOf s) (line - 1) ∧
      lenLines (File.delete s line col) = lenLines s - 1) ∧
    (line < lenLines s → 0 < col → col ≤ lineLen s line →
      linesOf (File.delete s line col)
        = (linesOf s).set line (((linesOf s).getD line []).eraseIdx (col - 1))) ∧
    ((ropeLine s line).length < col → File.delete s line col = s) ∧
    (line + 1 < lenLines s → col = lineLen s line + 1 →
      linesOf (File.delete s line col) = joinAt (linesOf s) line ∧
      lenLines (File.delete s line col) = lenLines s - 1) := by
  refine ⟨fun h => delete_oob s line col h,
    fun h0 hc => by subst h0; subst hc; exact delete_origin s,
    fun hp hlt hc => by subst hc; exact delete_join_prev line s hp hlt,
    fun hlt hc hle => delete_mid line s col hlt hc (lineLen_eq s line ▸ hle),
    fun h => delete_past_rope s line col h,
    fun hlt hc => delete_join_next line s col hlt hc⟩

/-- Claim C1, counterexample.  The claim states that `delete(line, col)` is a
no-op whenever `col > line_len(line)` (stripped length).  On the buffer
`"HW\nGuys !"`, line 0 has stripped length 2, yet `delete(0, 3)` is not a
no-op: it deletes the newline, yielding `"HWGuys !"`. -/
theorem C1_counterexample :
    File.delete ("HW\nGuys !".toList) 0 3 = "HWGuys !".toList ∧
    lineLen ("HW\nGuys !".toList) 0 = 2 ∧
    File.delete ("HW\nGuys !".toList) 0 3 ≠ "HW\nGuys !".toList := by decide

/-- Claim C1, witness: the amended theorem applied at the concrete buffer
`"ab\ncd"`, joining line 1 onto line 0. -/
theorem C1_witness :
    linesOf (File.delete ("ab\ncd".toList) 1 0) = joinAt (linesOf ("ab\ncd".toList)) 0 ∧
    lenLines (File.delete ("ab\ncd".toList) 1 0) = lenLines ("ab\ncd".toList) - 1 :=
  (C1_file_delete_amended ("ab\ncd".toList) 1 0).2.2.1 (by decide) (by decide) rfl

/-! ### Claim C3 — `File::delete_line` -/

theorem delete_line_oob (s : Text) (line : Nat) (h : lenLines s ≤ line) :
    File.delete_line s line = none := by
  unfold File.delete_line
  rw [if_pos (by omega)]

theorem delete_line_shift {l₀ : Text} (t : Text) (h : '\n' ∉ l₀) (i : Nat) :
    File.delete_line (l₀ ++ '\n' :: t) (i + 1)
      = (File.delete_line t i).map (fun u => l₀ ++ '\n' :: u) := by
  unfold File.delete_line
  rw [lenLines_append_nl t h]
  by_cases hb : lenLines t < i + 1
  · rw [if_pos (by omega), if_pos hb]
    rfl
  · rw [if_neg (by omega), if_neg hb]
    have e1 := lineToChar_append_nl t h i
    have e2 := lineToChar_append_nl t h (i + 1)
    rw [e1, e2, removeRange_shift]
    rfl

theorem delete_line_zero_append {l₀ : Text} (t : Text) (h : '\n' ∉ l₀) :
    File.delete_line (l₀ ++ '\n' :: t) 0 = some t := by
  unfold File.delete_line
  rw [lenLines_append_nl t h, if_neg (by omega), lineToChar_zero,
    lineToChar_append_nl t h 0]
  unfold removeRange
  rw [List.take_zero, List.drop_append_eq_append_drop, List.drop_of_length_le (by omega)]
  congr 1
  rw [show l₀.length + 1 + lineToChar t 0 - l₀.length = 1 + lineToChar t 0 by omega,
    lineToChar_zero]
  simp

theorem delete_line_nlfree {s : Text} (h : '\n' ∉ s) :
    File.delete_line s 0 = some [] := by
  unfold File.delete_line
  rw [if_neg (by have := lenLines_pos s; omega), lineToChar_zero]
  unfold removeRange
  rw [List.take_zero, lineToChar_nlfree h, List.drop_of_length_le (le_refl _)]
  rfl

theorem delete_line_nonlast : ∀ (line : Nat) (s : Text), line + 1 < lenLines s →
    ∃ u, File.delete_line s line = some u ∧
      linesOf u = (linesOf s).eraseIdx line ∧ lenLines u = lenLines s - 1 := by
  intro line
  induction line with
  | zero =>
    intro s h1
    rcases text_decomp s with hf | ⟨l₀, t, hl, rfl⟩
    · exact absurd (mem_of_two_lines (by omega)) hf
    · have hlen : lenLines (l₀ ++ '\n' :: t) = lenLines t + 1 := lenLines_append_nl t hl
      refine ⟨t, delete_line_zero_append t hl, ?_, by omega⟩
      rw [linesOf_append_nl t hl]
      simp
  | succ n ihn =>
    intro s h1
    rcases text_decomp s with hf | ⟨l₀, t, hl, rfl⟩
    · exact absurd (mem_of_two_lines (by omega)) hf
    · have hlen : lenLines (l₀ ++ '\n' :: t) = lenLines t + 1 := lenLines_append_nl t hl
      obtain ⟨u, hu, hlines, hcount⟩ := ihn t (by omega)
      refine ⟨l₀ ++ '\n' :: u, ?_, ?_, ?_⟩
      · rw [delete_line_shift t hl n, hu]
        rfl
      · rw [linesOf_append_nl u hl, linesOf_append_nl t hl, hlines]
        simp
      · rw [lenLines_append_nl u hl, hcount]
        omega

theorem delete_line_last : ∀ (line : Nat) (s : Text), line + 1 = lenLines s →
    ∃ u, File.delete_line s line = some u ∧
      linesOf u = (linesOf s).set line [] ∧ lenLines u = lenLines s := by
  intro line
  induction line with
  | zero =>
    intro s h1
    have hf : '\n' ∉ s := by
      intro hm
      have := List.count_pos_iff.mpr hm
      simp [lenLines] at h1
      omega
    refine ⟨[], delete_line_nlfree hf, ?_, ?_⟩
    · rw [linesOf_nlfree hf]
      rfl
    · simp [lenLines] at h1 ⊢
      omega
  | succ n ihn =>
    intro s h1
    rcases text_decomp s with hf | ⟨l₀, t, hl, rfl⟩
    · have : lenLines s = 1 := by simp [lenLines, List.count_eq_zero.mpr hf]
      omega
    · have hlen : lenLines (l₀ ++ '\n' :: t) = lenLines t + 1 := lenLines_append_nl t hl
      obtain ⟨u, hu, hlines, hcount⟩ := ihn t (by omega)
      refine ⟨l₀ ++ '\n' :: u, ?_, ?_, ?_⟩
      · rw [delete_line_shift t hl n, hu]
        rfl
      · rw [linesOf_append_nl u hl, linesOf_append_nl t hl, hlines]
        simp
      · rw [lenLines_append_nl u hl, hcount]
        omega

/-- Claim C3 (amended).  The claim states `delete_line(line)` is total and
infallible: a no-op for `line ≥ len()`, a truncation to empty for the sole
line, and otherwise a removal of the line with the line count decreasing by
one.  What the code does: for `line ≥ len()` it PANICS (modelled `none`,
refuting totality); for the last line (including the sole-line case) it
removes the line's characters but keeps the preceding newline, so the last
line is truncated to empty and the line count is unchanged; only for a
non-last line is the line removed with the count decreasing by one. -/
theorem C3_delete_line_amended (line : Nat) (s : Text) :
    (lenLines s ≤ line → File.delete_line s line = none) ∧
    (lenLines s = 1 → File.delete_line s 0 = some []) ∧
    (line + 1 < lenLines s → ∃ u, File.delete_line s line = some u ∧
      linesOf u = (linesOf s).eraseIdx line ∧ lenLines u = lenLines s - 1) ∧
    (line + 1 = lenLines s → ∃ u, File.delete_line s line = some u ∧
      linesOf u = (linesOf s).set line [] ∧ lenLines u = lenLines s) := by
  refine ⟨fun h => delete_line_oob s line h, fun h1 => ?_,
    fun h => delete_line_nonlast line s h, fun h => delete_line_last line s h⟩
  have hf : '\n' ∉ s := by
    intro hm
    have := List.count_pos_iff.mpr hm
    simp [lenLines] at h1
    omega
  exact delete_line_nlfree hf

/-- Claim C3, counterexample.  The claim says `delete_line(1)` on the
one-line buffer `"a"` is a no-op; the code panics (`none`).  It also says
deleting a non-sole line decreases the line count; deleting the last line of
`"a\nb"` yields `"a\n"`, whose line count is still 2. -/
theorem C3_counterexample :
    File.delete_line ("a".toList) 1 = none ∧
    File.delete_line ("a\nb".toList) 1 = some ("a\n".toList) ∧
    lenLines ("a\nb".toList) = 2 ∧ lenLines ("a\n".toList) = 2 := by decide

/-- Claim C3, witness: the amended theorem applied to deleting the first of
the two lines of `"a\nb"`. -/
theorem C3_witness :
    ∃ u, File.delete_line ("a\nb".toList) 0 = some u ∧
      linesOf u = (linesOf ("a\nb".toList)).eraseIdx 0 ∧
      lenLines u = lenLines ("a\nb".toList) - 1 :=
  (C3_delete_line_amended 0 ("a\nb".toList)).2.2.1 (by decide)

/-! ### The View (`src/editor/view/mod.rs`) -/

/-- Upper bound of Rust's 64-bit `isize`. -/
def IMAX : Int := 2 ^ 63 - 1

/-- Lower bound of Rust's 64-bit `isize`. -/
def IMIN : Int := -(2 ^ 63)

/-- Model of `isize::saturating_add`. -/
def satAdd (a b : Int) : Int := max IMIN (min IMAX (a + b))

/-- Model of Rust's `as usize` cast of an `isize` value: exact on
non-negative values, two's-complement wrap on negative values. -/
def asUsize (i : Int) : Nat := if i < 0 then (i + 2 ^ 64).toNat else i.toNat

/-- Model of a Rust `usize + usize` addition in release mode: wrapping at
`2 ^ 64`.  (A debug build panics on overflow instead.)  Used for the one
addition in the scrolling code that genuinely can overflow, `y +
self.start_line` in `View::navigate_x`, once a degenerate `navigate` has set
`cursor.y = 2 ^ 64 - 1`; it is exact whenever the sum is below `2 ^ 64`. -/
def wrapAdd (a b : Nat) : Nat := (a + b) % 2 ^ 64

/-- `View` (`src/editor/view/mod.rs:18`): the file being displayed plus the
viewport state.  `cursor.1` is the x (column) position in the window,
`cursor.2` the y (row) position. -/
structure View where
  file : Text
  start_line : Nat
  start_col : Nat
  height : Nat
  width : Nat
  cursor : Nat × Nat
deriving DecidableEq

/-- `View::navigate_y` (`src/editor/view/mod.rs:230`). -/
def View.navigate_y (v : View) (dy : Int) : View × Bool :=
  let file_height : Int := lenLines v.file
  let view_height : Int := v.height
  let top : Int := v.start_line
  let abs_y : Int :=
    min (max (satAdd (satAdd (v.cursor.2 : Int) dy) top) 0) (file_height - 1)
  let rel_y : Int := abs_y - top
  if rel_y < 0 then
    ({ v with start_line := asUsize (top + rel_y), cursor := (v.cursor.1, 0) }, true)
  else if view_height ≤ rel_y then
    ({ v with
        start_line :=
          asUsize (max (min (top + rel_y - view_height + 1) (file_height - view_height)) 0),
        cursor := (v.cursor.1, asUsize (min (view_height - 1) (file_height - 1))) }, true)
  else
    ({ v with cursor := (v.cursor.1, asUsize rel_y) }, false)

/-- `View::navigate_x` (`src/editor/view/mod.rs:261`).  The `usize` addition
`y + self.start_line` is modelled as wrapping (`wrapAdd`, release-mode
semantics); a debug build panics instead when it overflows, which happens
exactly in the degenerate-window states where `cursor.y = 2 ^ 64 - 1`. -/
def View.navigate_x (v : View) (dx : Int) : View × Bool :=
  let line_len : Int := ((File.line v.file (wrapAdd v.cursor.2 v.start_line)).getD []).length
  let left : Int := v.start_col
  let width : Int := v.width
  let abs_x : Int :=
    min (max (satAdd (satAdd (v.cursor.1 : Int) dx) left) 0) line_len
  let rel_x : Int := abs_x - left
  if rel_x < 0 then
    ({ v with start_col := asUsize (max (left + rel_x) 0), cursor := (0, v.cursor.2) }, true)
  else if width ≤ rel_x then
    ({ v with
        start_col := asUsize (max (min (left + rel_x) line_len - width + 1) 0),
        cursor := (asUsize (width - 1), v.cursor.2) }, true)
  else
    ({ v with cursor := (asUsize rel_x, v.cursor.2) }, false)

/-- `View::navigate` (`src/editor/view/mod.rs:115`): move on y first, then on
x; report whether either direction scrolled. -/
def View.navigate (v : View) (dx dy : Int) : View × Bool :=
  let py := View.navigate_y v dy
  let px := View.navigate_x py.1 dx
  (px.1, px.2 || py.2)

/-- `View::insert` (`src/editor/view/mod.rs:127`): insert at the absolute
cursor position, then navigate one to the right. -/
def View.insert (v : View) (c : Char) : View × Bool :=
  View.navigate
    { v with file := File.insert v.file (v.cursor.2 + v.start_line) (v.cursor.1 + v.start_col) c }
    1 0

/-- `View::insert_new_line` (`src/editor/view/mod.rs:149`): split the line at
the absolute cursor, then navigate to column 0 of the next line. -/
def View.insert_new_line (v : View) : View × Bool :=
  View.navigate
    { v with file := File.split_line v.file (v.cursor.2 + v.start_line) (v.cursor.1 + v.start_col) }
    (-((v.cursor.1 + v.start_col : Nat) : Int)) 1

/-- `View::delete` (`src/editor/view/mod.rs:159`): remember the previous
line's length (`y.saturating_sub(1)`; length 0 when that line is absent),
delete at the absolute cursor, then navigate left, or up to the end of the
previous line. -/
def View.delete (v : View) : View × Bool :=
  let x := v.cursor.1 + v.start_col
  let y := v.cursor.2 + v.start_line
  let prev_line_len := ((File.line v.file (y - 1)).getD []).length
  let v' := { v with file := File.delete v.file y x }
  if 0 < x then View.navigate v' (-1) 0
  else View.navigate v' (prev_line_len : Int) (-1)

/-- `View::delete_line` (`src/editor/view/mod.rs:182`): delete the line at
the absolute cursor, then navigate to column 0.  Inherits the panic of
`File::delete_line` (modelled `none`). -/
def View.delete_line (v : View) : Option (View × Bool) :=
  match File.delete_line v.file (v.cursor.2 + v.start_line) with
  | none => none
  | some b =>
      some (View.navigate { v with file := b } (-((v.cursor.1 + v.start_col : Nat) : Int)) 0)

/-- `View::line` (`src/editor/view/mod.rs:102`): the slice of buffer line
`index + start_line` from `start_col` to `min(start_col + width, len)`;
the empty string when the buffer line does not exist.  Rust's slice indexing
`line[start..end]` panics when `start > end`, i.e. exactly when the
underlying line is shorter than `start_col`; the panic is modelled `none`. -/
def View.line (v : View) (index : Nat) : Option Text :=
  match File.line v.file (index + v.start_line) with
  | some l =>
      if v.start_col ≤ min (v.start_col + v.width) l.length
      then some ((l.drop v.start_col).take (min (v.start_col + v.width) l.length - v.start_col))
      else none
  | none => some []

/-- A fresh view over a buffer, as `View::new`, `Default` and `From<String>`
build it (zero scroll offsets, cursor at the origin), with the viewport set
to the given height and width. -/
def View.init (buf : Text) (height width : Nat) : View :=
  { file := buf, start_line := 0, start_col := 0, height := height, width := width,
    cursor := (0, 0) }

/-! ### Claim C2 — the view invariant -/

/-- The view invariant of spec §4.2 and P3: the cursor lies inside the
window, and the absolute cursor position is a valid buffer position (its
line exists and its column is at most that line's stripped length). -/
def View.Inv (v : View) : Prop :=
  v.cursor.1 < v.width ∧ v.cursor.2 < v.height ∧
  v.cursor.2 + v.start_line < lenLines v.file ∧
  v.cursor.1 + v.start_col ≤ lineLen v.file (v.cursor.2 + v.start_line)

instance (v : View) : Decidable v.Inv := by
  unfold View.Inv
  infer_instance

theorem navigate_y_inv (v : View) (dy : Int) (hh : 0 < v.height) :
    (View.navigate_y v dy).1.cursor.2 < v.height ∧
    (View.navigate_y v dy).1.cursor.2 + (View.navigate_y v dy).1.start_line
      < lenLines v.file := by
  have hfh := lenLines_pos v.file
  simp only [View.navigate_y, satAdd, asUsize, IMAX, IMIN]
  split_ifs <;> dsimp only <;> omega

theorem navigate_y_frame (v : View) (dy : Int) :
    (View.navigate_y v dy).1.file = v.file ∧
    (View.navigate_y v dy).1.width = v.width ∧
    (View.navigate_y v dy).1.height = v.height ∧
    (View.navigate_y v dy).1.start_col = v.start_col ∧
    (View.navigate_y v dy).1.cursor.1 = v.cursor.1 := by
  simp only [View.navigate_y]
  split_ifs <;> simp

/-- In a non-trivial window `navigate_y` keeps `start_line` and `cursor.y`
within the `isize` range: the clamped `abs_y` never exceeds `isize::MAX`, so
neither reassignment can wrap.  This is what keeps the `usize` addition of
`navigate_x` exact along every run from a fresh view. -/
theorem navigate_y_bnd (v : View) (dy : Int) (hh : 0 < v.height)
    (hsl : v.start_line ≤ 2 ^ 63 - 1) :
    (View.navigate_y v dy).1.start_line ≤ 2 ^ 63 - 1 ∧
    (View.navigate_y v dy).1.cursor.2 ≤ 2 ^ 63 - 1 := by
  have hfh := lenLines_pos v.file
  simp only [View.navigate_y, satAdd, asUsize, IMAX, IMIN]
  split_ifs <;> dsimp only <;> omega

theorem navigate_x_inv (v : View) (dx : Int) (hw : 0 < v.width)
    (hb : v.cursor.2 + v.start_line < 2 ^ 64) :
    (View.navigate_x v dx).1.cursor.1 < v.width ∧
    (View.navigate_x v dx).1.cursor.1 + (View.navigate_x v dx).1.start_col
      ≤ lineLen v.file (v.cursor.2 + v.start_line) := by
  have hww : wrapAdd v.cursor.2 v.start_line = v.cursor.2 + v.start_line := by
    unfold wrapAdd
    omega
  simp only [View.navigate_x, satAdd, asUsize, IMAX, IMIN, lineLen, hww]
  split_ifs <;> dsimp only <;> omega

theorem navigate_x_frame (v : View) (dx : Int) :
    (View.navigate_x v dx).1.file = v.file ∧
    (View.navigate_x v dx).1.width = v.width ∧
    (View.navigate_x v dx).1.height = v.height ∧
    (View.navigate_x v dx).1.start_line = v.start_line ∧
    (View.navigate_x v dx).1.cursor.2 = v.cursor.2 := by
  simp only [View.navigate_x]
  split_ifs <;> simp

/-- One `navigate` call establishes the invariant from any state whose
`start_line` is in the `isize` range, as long as the window is
non-degenerate. -/
theorem navigate_inv (v : View) (dx dy : Int) (hw : 0 < v.width) (hh : 0 < v.height)
    (hsl : v.start_line ≤ 2 ^ 63 - 1) :
    View.Inv (View.navigate v dx dy).1 := by
  obtain ⟨hyc, hya⟩ := navigate_y_inv v dy hh
  obtain ⟨hbs, hbc⟩ := navigate_y_bnd v dy hh hsl
  obtain ⟨hf, hwid, hht, _, _⟩ := navigate_y_frame v dy
  obtain ⟨hxc, hxa⟩ := navigate_x_inv (View.navigate_y v dy).1 dx (by rw [hwid]; exact hw)
    (by omega)
  obtain ⟨hf', hwid', hht', hsl', hcy'⟩ := navigate_x_frame (View.navigate_y v dy).1 dx
  have hnav : (View.navigate v dx dy).1 = (View.navigate_x (View.navigate_y v dy).1 dx).1 := rfl
  refine ⟨?_, ?_, ?_, ?_⟩
  · rw [hnav, hwid']
    exact hxc
  · rw [hnav, hcy', hht', hht]
    exact hyc
  · rw [hnav, hcy', hsl', hf', hf]
    exact hya
  · rw [hnav, hcy', hsl', hf']
    exact hxa

theorem navigate_frame (v : View) (dx dy : Int) :
    (View.navigate v dx dy).1.file = v.file ∧
    (View.navigate v dx dy).1.width = v.width ∧
    (View.navigate v dx dy).1.height = v.height := by
  obtain ⟨hf, hwid, hht, _, _⟩ := navigate_y_frame v dy
  obtain ⟨hf', hwid', hht', _, _⟩ := navigate_x_frame (View.navigate_y v dy).1 dx
  have hnav : (View.navigate v dx dy).1 = (View.navigate_x (View.navigate_y v dy).1 dx).1 := rfl
  exact ⟨by rw [hnav, hf', hf], by rw [hnav, hwid', hwid], by rw [hnav, hht', hht]⟩

theorem navigate_bnd (v : View) (dx dy : Int) (hh : 0 < v.height)
    (hsl : v.start_line ≤ 2 ^ 63 - 1) :
    (View.navigate v dx dy).1.start_line ≤ 2 ^ 63 - 1 := by
  have hb := (navigate_y_bnd v dy hh hsl).1
  have hf := (navigate_x_frame (View.navigate_y v dy).1 dx).2.2.2.1
  have hnav : (View.navigate v dx dy).1 = (View.navigate_x (View.navigate_y v dy).1 dx).1 := rfl
  rw [hnav, hf]
  exact hb

/-- The write/navigate operations a `View` exposes (`FileView` trait in
`src/editor/view/mod.rs`). -/
inductive ViewOp
  | navigate (dx dy : Int)
  | insert (c : Char)
  | insertNewLine
  | delete
  | deleteLine

/-- Apply one view operation; `none` is a panic (only `delete_line` can
panic, through `File::delete_line`). -/
def View.applyOp (v : View) : ViewOp → Option View
  | .navigate dx dy => some (View.navigate v dx dy).1
  | .insert c => some (View.insert v c).1
  | .insertNewLine => some (View.insert_new_line v).1
  | .delete => some (View.delete v).1
  | .deleteLine => (View.delete_line v).map Prod.fst

/-- Apply a sequence of view operations left to right. -/
def View.applyOps (v : View) : List ViewOp → Option View
  | [] => some v
  | op :: ops =>
      match View.applyOp v op with
      | none => none
      | some v' => View.applyOps v' ops

theorem applyOp_inv (v : View) (op : ViewOp) (hw : 0 < v.width) (hh : 0 < v.height)
    (hb : v.start_line ≤ 2 ^ 63 - 1) (hv : View.Inv v) :
    ∃ v', View.applyOp v op = some v' ∧ View.Inv v' ∧
      v'.width = v.width ∧ v'.height = v.height ∧ v'.start_line ≤ 2 ^ 63 - 1 := by
  cases op with
  | navigate dx dy =>
    exact ⟨_, rfl, navigate_inv v dx dy hw hh hb,
      (navigate_frame v dx dy).2.1, (navigate_frame v dx dy).2.2,
      navigate_bnd v dx dy hh hb⟩
  | insert c =>
    exact ⟨_, rfl, navigate_inv _ 1 0 hw hh hb,
      (navigate_frame _ 1 0).2.1, (navigate_frame _ 1 0).2.2,
      navigate_bnd _ 1 0 hh hb⟩
  | insertNewLine =>
    exact ⟨_, rfl, navigate_inv _ _ 1 hw hh hb,
      (navigate_frame _ _ 1).2.1, (navigate_frame _ _ 1).2.2,
      navigate_bnd _ _ 1 hh hb⟩
  | delete =>
    simp only [View.applyOp, View.delete]
    split_ifs
    · exact ⟨_, rfl, navigate_inv _ (-1) 0 hw hh hb,
        (navigate_frame _ (-1) 0).2.1, (navigate_frame _ (-1) 0).2.2,
        navigate_bnd _ (-1) 0 hh hb⟩
    · exact ⟨_, rfl, navigate_inv _ _ (-1) hw hh hb,
        (navigate_frame _ _ (-1)).2.1, (navigate_frame _ _ (-1)).2.2,
        navigate_bnd _ _ (-1) hh hb⟩
  | deleteLine =>
    have hok : File.delete_line v.file (v.cursor.2 + v.start_line)
        = some (removeRange v.file (lineToChar v.file (v.cursor.2 + v.start_line))
            (lineToChar v.file (v.cursor.2 + v.start_line + 1))) := by
      unfold File.delete_line
      rw [if_neg (by have := hv.2.2.1; omega)]
    simp only [View.applyOp, View.delete_line, hok, Option.map_some']
    exact ⟨_, rfl, navigate_inv _ _ 0 hw hh hb,
      (navigate_frame _ _ 0).2.1, (navigate_frame _ _ 0).2.2,
      navigate_bnd _ _ 0 hh hb⟩

theorem applyOps_inv : ∀ (ops : List ViewOp) (v : View), 0 < v.width → 0 < v.height →
    v.start_line ≤ 2 ^ 63 - 1 → View.Inv v →
    ∃ v', View.applyOps v ops = some v' ∧ View.Inv v' := by
  intro ops
  induction ops with
  | nil => exact fun v _ _ _ hv => ⟨v, rfl, hv⟩
  | cons op ops ih =>
    intro v hw hh hb hv
    obtain ⟨v1, h1, hv1, hww, hhh, hb1⟩ := applyOp_inv v op hw hh hb hv
    obtain ⟨v', h', hv'⟩ := ih v1 (by omega) (by omega) hb1 hv1
    refine ⟨v', ?_, hv'⟩
    simp only [View.applyOps, h1]
    exact h'

/-- Claim C2.  For every sequence of view operations (`navigate`, `insert`,
`insert_new_line`, `delete`, `delete_line`) applied to a view with positive
width and height, afterwards `cursor.x ∈ [0, width)`, `cursor.y ∈ [0, height)`
and the absolute position `(cursor.x + start_col, cursor.y + start_line)` is a
valid position of the buffer: its line index is below `len()` and its column
is at most that stripped line's length.  No operation panics along the way
(`applyOps` returns `some`). -/
theorem C2_view_invariant (buf : Text) (height width : Nat) (ops : List ViewOp)
    (hw : 0 < width) (hh : 0 < height) :
    ∃ v', View.applyOps (View.init buf height width) ops = some v' ∧ View.Inv v' :=
  applyOps_inv ops (View.init buf height width) hw hh (by simp [View.init])
    ⟨hw, hh, by simpa [View.init] using lenLines_pos buf, by simp [View.init]⟩

/-- Claim C2, witness: a concrete run of all five operations on the one-char
buffer `"a"` in a 1×1 window. -/
theorem C2_witness :
    ∃ v', View.applyOps (View.init ("a".toList) 1 1)
        [ViewOp.insert 'b', ViewOp.navigate 1 0, ViewOp.delete, ViewOp.insertNewLine,
         ViewOp.deleteLine, ViewOp.navigate (-IMAX) (-1)]
      = some v' ∧ View.Inv v' :=
  C2_view_invariant ("a".toList) 1 1 _ (by decide) (by decide)

/-! ### Claim C4 — `View::line` totality -/

/-- Claim C4.  The claim says `View::line(i)` is total: when the underlying
buffer line is shorter than `start_col` it returns the empty string and
never panics.  The code slices `line[start_col .. min(start_col + width,
line.len())]`, and a Rust slice whose start exceeds its end panics; that is
exactly the case `line.len() < start_col`.  Concretely: over the buffer
`"ab\nx"` with `start_col = 2`, row 1 overlays the line `"x"` of length 1,
and `View::line(1)` panics (`none`) instead of returning the empty string —
while the in-range row 0 is sliced as specified. -/
theorem C4_view_line_panics :
    View.line
        { file := "ab\nx".toList, start_line := 0, start_col := 2, height := 2,
          width := 5, cursor := (0, 0) } 1 = none ∧
    File.line ("ab\nx".toList) 1 = some ("x".toList) ∧
    View.line
        { file := "ab\nx".toList, start_line := 0, start_col := 2, height := 2,
          width := 5, cursor := (0, 0) } 0 = some [] := by decide

/-! ### Claim C5 — delete at the absolute origin -/

theorem navigate_y_origin (f : Text) (h w : Nat) (hh : 0 < h) :
    View.navigate_y (View.mk f 0 0 h w (0, 0)) (-1) = (View.mk f 0 0 h w (0, 0), false) := by
  have hfh := lenLines_pos f
  simp only [View.navigate_y, satAdd, asUsize, IMAX, IMIN, Nat.add_zero, Nat.zero_add]
  split_ifs <;>
    first
    | (exfalso; omega)
    | (simp only [View.mk.injEq, Prod.mk.injEq]; simp; try omega)

theorem navigate_x_origin (f : Text) (h w : Nat) (hw : 0 < w)
    (hL : ((File.line f 0).getD []).length < 2 ^ 63) :
    View.navigate_x (View.mk f 0 0 h w (0, 0)) (((File.line f 0).getD []).length : Int)
      = if w ≤ ((File.line f 0).getD []).length then
          (View.mk f 0 (((File.line f 0).getD []).length - w + 1) h w (w - 1, 0), true)
        else
          (View.mk f 0 0 h w (((File.line f 0).getD []).length, 0), false) := by
  simp only [View.navigate_x, wrapAdd, satAdd, asUsize, IMAX, IMIN, Nat.add_zero,
    Nat.zero_add, Nat.zero_mod]
  split_ifs <;>
    first
    | (exfalso; omega)
    | (simp only [View.mk.injEq, Prod.mk.injEq]; simp; try omega)

/-- Claim C5 (amended).  The claim says deleting at absolute position
`(0, 0)` is a no-op.  In the code, `prev_line_len` is read from line
`y.saturating_sub(1)`, which at `y = 0` is line 0 itself, so after the
(buffer-preserving) `buffer.delete(0, 0)` the view navigates by
`(line_len(0), −1)`: the buffer, `start_line` and `cursor.y` are unchanged,
but the cursor moves to the END of line 0 — the absolute column becomes
`line_len(0)`, scrolling horizontally (`scrolled = true`) exactly when
`width ≤ line_len(0)`.  It is a no-op only when line 0 is empty. -/
theorem C5_delete_at_origin_amended (v : View) (hcur : v.cursor = (0, 0))
    (hsl : v.start_line = 0) (hsc : v.start_col = 0)
    (hw : 0 < v.width) (hh : 0 < v.height)
    (hL : lineLen v.file 0 < 2 ^ 63) :
    (View.delete v).1.file = v.file ∧
    (View.delete v).1.cursor.2 = 0 ∧
    (View.delete v).1.start_line = 0 ∧
    (View.delete v).1.cursor.1 + (View.delete v).1.start_col = lineLen v.file 0 ∧
    ((View.delete v).2 = true ↔ v.width ≤ lineLen v.file 0) := by
  obtain ⟨f, sl, sc, h, w, cur⟩ := v
  dsimp only at hcur hsl hsc hw hh hL ⊢
  subst hcur
  subst hsl
  subst hsc
  rw [lineLen] at hL ⊢
  have hstep : View.delete (View.mk f 0 0 h w (0, 0))
      = View.navigate (View.mk f 0 0 h w (0, 0))
          (((File.line f 0).getD []).length : Int) (-1) := by
    simp [View.delete, delete_origin]
  rw [hstep]
  by_cases hcase : w ≤ ((File.line f 0).getD []).length
  · simp only [View.navigate, navigate_y_origin f h w hh, navigate_x_origin f h w hw hL,
      if_pos hcase]
    simp
    omega
  · simp only [View.navigate, navigate_y_origin f h w hh, navigate_x_origin f h w hw hL,
      if_neg hcase]
    simp
    omega

set_option maxRecDepth 40000 in
/-- Claim C5, counterexample.  On the buffer `"Hi"` in a 1×10 window with the
cursor at the absolute origin, `View::delete()` is not a no-op: the buffer is
unchanged but the cursor moves to `(2, 0)`, the end of line 0. -/
theorem C5_counterexample :
    (View.delete (View.init ("Hi".toList) 1 10)).1.cursor = (2, 0) ∧
    (View.delete (View.init ("Hi".toList) 1 10)).1.file = "Hi".toList ∧
    (View.delete (View.init ("Hi".toList) 1 10)).1.cursor ≠ (0, 0) := by decide

/-- Claim C5, witness: the amended theorem applied to the view over `"Hi"`
in a 1×10 window. -/
theorem C5_witness :
    (View.delete (View.init ("Hi".toList) 1 10)).1.file
      = (View.init ("Hi".toList) 1 10).file ∧
    (View.delete (View.init ("Hi".toList) 1 10)).1.cursor.2 = 0 ∧
    (View.delete (View.init ("Hi".toList) 1 10)).1.start_line = 0 ∧
    (View.delete (View.init ("Hi".toList) 1 10)).1.cursor.1
        + (View.delete (View.init ("Hi".toList) 1 10)).1.start_col
      = lineLen (View.init ("Hi".toList) 1 10).file 0 ∧
    ((View.delete (View.init ("Hi".toList) 1 10)).2 = true ↔
      (View.init ("Hi".toList) 1 10).width ≤ lineLen (View.init ("Hi".toList) 1 10).file 0) :=
  C5_delete_at_origin_amended _ rfl rfl rfl (by decide) (by decide) (by decide)

/-! ### Claim C6 — height == 0 or width == 0 -/

theorem navigate_y_degenerate (buf : Text) (dy : Int) :
    (View.navigate_y (View.init buf 0 0) dy).2 = true ∧
    (View.navigate_y (View.init buf 0 0) dy).1.file = buf ∧
    (View.navigate_y (View.init buf 0 0) dy).1.start_col = 0 ∧
    (View.navigate_y (View.init buf 0 0) dy).1.height = 0 ∧
    (View.navigate_y (View.init buf 0 0) dy).1.width = 0 ∧
    (View.navigate_y (View.init buf 0 0) dy).1.cursor.1 = 0 ∧
    (View.navigate_y (View.init buf 0 0) dy).1.cursor.2 = 2 ^ 64 - 1 ∧
    1 ≤ (View.navigate_y (View.init buf 0 0) dy).1.start_line ∧
    (View.navigate_y (View.init buf 0 0) dy).1.start_line ≤ lenLines buf := by
  have hfh := lenLines_pos buf
  simp only [View.init, View.navigate_y, satAdd, asUsize, IMAX, IMIN,
    Nat.add_zero, Nat.zero_add]
  split_ifs <;>
    first
    | (exfalso; omega)
    | (refine ⟨rfl, rfl, rfl, rfl, rfl, rfl, ?_, ?_, ?_⟩ <;> (dsimp only; omega))

/-- With `width = 0` and zero x-offsets, `navigate_x` always takes the
`width <= rel_x` branch: it reads the length of the line at the WRAPPED index
`wrapAdd cursor.y start_line`, scrolls `start_col` to one past the clamped
target column of that line, and the cast `(width - 1) as usize` sends
`cursor.x` to `2 ^ 64 - 1`. -/
theorem navigate_x_degenerate (v : View) (dx : Int) (hw : v.width = 0)
    (hsc : v.start_col = 0) (hcx : v.cursor.1 = 0) :
    (View.navigate_x v dx).2 = true ∧
    (View.navigate_x v dx).1.start_col
      = (min (max (satAdd (satAdd 0 dx) 0) 0)
          (lineLen v.file (wrapAdd v.cursor.2 v.start_line) : Int)).toNat + 1 ∧
    (View.navigate_x v dx).1.cursor.1 = 2 ^ 64 - 1 ∧
    (View.navigate_x v dx).1.cursor.2 = v.cursor.2 ∧
    (View.navigate_x v dx).1.start_line = v.start_line ∧
    (View.navigate_x v dx).1.file = v.file := by
  simp only [View.navigate_x, satAdd, asUsize, IMAX, IMIN, lineLen, hw, hsc, hcx]
  split_ifs <;>
    first
    | (exfalso; omega)
    | (refine ⟨rfl, ?_, ?_, rfl, rfl, rfl⟩ <;> (dsimp only; omega))

/-- Claim C6 (amended).  The claim says that with `height == 0` or
`width == 0` a `navigate` does no scrolling and pins the cursor to `(0, 0)`.
In fact, from the only degenerate-window state the program builds (a fresh
view with both dimensions 0 and zero offsets), `navigate(dx, dy)` always
reports scrolling: the y-step returns `true`, moves `start_line` into
`[1, len]` and sets `cursor.y` to `2^64 − 1` (the Rust cast
`(view_height - 1) as usize` of `-1`); the x-step then computes the line
index `cursor.y + start_line`, a `usize` addition that OVERFLOWS — a debug
build panics there, a release build wraps it to `start_line − 1`, a valid
line — so it reads that line's length, sets `start_col` to one past the
clamped target column within line `start_line − 1` (hence `start_col ∈
[1, line_len(start_line − 1) + 1]`), and sets `cursor.x` to `2^64 − 1`
(the cast `(width - 1) as usize`).  The cursor ends at `(2^64 − 1,
2^64 − 1)`, not `(0, 0)`.  The release (wrapping) semantics is what is
modelled. -/
theorem C6_degenerate_amended (buf : Text) (dx dy : Int) (hlen : lenLines buf < 2 ^ 64) :
    (View.navigate (View.init buf 0 0) dx dy).2 = true ∧
    1 ≤ (View.navigate (View.init buf 0 0) dx dy).1.start_line ∧
    (View.navigate (View.init buf 0 0) dx dy).1.start_line ≤ lenLines buf ∧
    (View.navigate (View.init buf 0 0) dx dy).1.start_col
      = (min (max (satAdd (satAdd 0 dx) 0) 0)
          (lineLen buf ((View.navigate (View.init buf 0 0) dx dy).1.start_line - 1)
            : Int)).toNat + 1 ∧
    1 ≤ (View.navigate (View.init buf 0 0) dx dy).1.start_col ∧
    (View.navigate (View.init buf 0 0) dx dy).1.start_col
      ≤ lineLen buf ((View.navigate (View.init buf 0 0) dx dy).1.start_line - 1) + 1 ∧
    (View.navigate (View.init buf 0 0) dx dy).1.cursor = (2 ^ 64 - 1, 2 ^ 64 - 1) := by
  obtain ⟨hb, hfile, hsc, hh, hw, hcx, hcy, hsl1, hsl2⟩ := navigate_y_degenerate buf dy
  have hW : wrapAdd (View.navigate_y (View.init buf 0 0) dy).1.cursor.2
      (View.navigate_y (View.init buf 0 0) dy).1.start_line
      = (View.navigate_y (View.init buf 0 0) dy).1.start_line - 1 := by
    rw [hcy]
    unfold wrapAdd
    omega
  obtain ⟨hx2, hxsc, hxcx, hxcy, hxsl, hxf⟩ :=
    navigate_x_degenerate (View.navigate_y (View.init buf 0 0) dy).1 dx hw hsc hcx
  have hnav1 : (View.navigate (View.init buf 0 0) dx dy).1
      = (View.navigate_x (View.navigate_y (View.init buf 0 0) dy).1 dx).1 := rfl
  have hnav2 : (View.navigate (View.init buf 0 0) dx dy).2
      = ((View.navigate_x (View.navigate_y (View.init buf 0 0) dy).1 dx).2
          || (View.navigate_y (View.init buf 0 0) dy).2) := rfl
  refine ⟨?_, ?_, ?_, ?_, ?_, ?_, ?_⟩
  · rw [hnav2, hx2]
    simp
  · rw [hnav1, hxsl]
    exact hsl1
  · rw [hnav1, hxsl]
    exact hsl2
  · rw [hnav1, hxsc, hxsl, hW, hfile]
  · rw [hnav1, hxsc]
    omega
  · rw [hnav1, hxsc, hxsl, hW, hfile]
    simp only [satAdd, IMAX, IMIN]
    omega
  · rw [hnav1]
    exact Prod.ext hxcx (hxcy.trans hcy)

set_option maxRecDepth 40000 in
/-- Claim C6, counterexample.  On a fresh 0×0 view over the buffer `"a"`,
`navigate(0, 0)` scrolls (`start_line` and `start_col` both change, the call
returns `true`) and the cursor ends at `(2^64 − 1, 2^64 − 1)`, not `(0, 0)`. -/
theorem C6_counterexample :
    (View.navigate (View.init ("a".toList) 0 0) 0 0).2 = true ∧
    (View.navigate (View.init ("a".toList) 0 0) 0 0).1.start_line = 1 ∧
    (View.navigate (View.init ("a".toList) 0 0) 0 0).1.start_col = 1 ∧
    (View.navigate (View.init ("a".toList) 0 0) 0 0).1.cursor
      = (2 ^ 64 - 1, 2 ^ 64 - 1) ∧
    (View.navigate (View.init ("a".toList) 0 0) 0 0).1.cursor ≠ (0, 0) := by decide

/-- Claim C6, witness: the amended theorem applied to the buffer `"a
b"` with `navigate(5, 7)`.  There `start_line` ends at 2, the wrapped read
hits line 1 (`"b"`, length 1), and `start_col` ends at 2. -/
theorem C6_witness :
    (View.navigate (View.init ("a
b".toList) 0 0) 5 7).2 = true ∧
    1 ≤ (View.navigate (View.init ("a
b".toList) 0 0) 5 7).1.start_line ∧
    (View.navigate (View.init ("a
b".toList) 0 0) 5 7).1.start_line
      ≤ lenLines ("a
b".toList) ∧
    (View.navigate (View.init ("a
b".toList) 0 0) 5 7).1.start_col
      = (min (max (satAdd (satAdd 0 5) 0) 0)
          (lineLen ("a
b".toList) ((View.navigate (View.init ("a
b".toList) 0 0) 5 7).1.start_line - 1) : Int)).toNat + 1 ∧
    1 ≤ (View.navigate (View.init ("a
b".toList) 0 0) 5 7).1.start_col ∧
    (View.navigate (View.init ("a
b".toList) 0 0) 5 7).1.start_col
      ≤ lineLen ("a
b".toList) ((View.navigate (View.init ("a
b".toList) 0 0) 5 7).1.start_line - 1) + 1 ∧
    (View.navigate (View.init ("a
b".toList) 0 0) 5 7).1.cursor
      = (2 ^ 64 - 1, 2 ^ 64 - 1) :=
  C6_degenerate_amended ("a
b".toList) 5 7 (by decide)

/-! ### The Editor (`src/editor/mod.rs`, `src/editor/command.rs`) -/

/-- `Mode` (`src/editor/mod.rs:121`). -/
inductive Mode
  | Normal
  | Insert
  | Rename
deriving DecidableEq

/-- `RefreshOrder` (`src/editor/mod.rs:141`): which part of the screen the
tui thread must redraw. -/
inductive RefreshOrder
  | Terminate
  | None
  | CursorPos
  | Lines (lines : Finset Nat)
  | StatusBar
  | GitIndicators
  | AllLines
  | Resize
deriving DecidableEq

/-- `Command` (`src/editor/command.rs:20`). -/
inductive Command
  | Quit
  | Move (dx dy : Int)
  | Save
  | Rename (c : Option Char)
  | ToggleMode
  | ToggleRename
  | Insert (c : Char)
  | Delete
  | InsertNewLine
  | CommandBlock (cmds : List Command)
  | DeleteLine

/-- A filesystem effect of `Editor::save` (`src/editor/mod.rs:224`): the
temporary-file write, or the atomic rename over the target. -/
inductive FsEvent
  | write (path : String) (content : Text)
  | ren (tmp dst : String)
deriving DecidableEq

/-- The state `Editor::execute` acts on (`src/editor/mod.rs:103`): file path
and name, view and mode.  `fs_log` records the filesystem effects of `Save`
in order. -/
structure Editor where
  file_path : String
  file_name : String
  view : View
  mode : Mode
  fs_log : List FsEvent
deriving DecidableEq

/-- `Editor::save` (`src/editor/mod.rs:217`): when the file name is empty,
return at once (no filesystem access, no state change); otherwise write
`<path>.tmp` with the dumped file and rename it over `<path>`. -/
def Editor.save (e : Editor) : Editor :=
  if e.file_name = "" then e
  else
    { e with fs_log := e.fs_log ++
        [FsEvent.write (e.file_path ++ e.file_name ++ ".tmp") e.view.file,
         FsEvent.ren (e.file_path ++ e.file_name ++ ".tmp") (e.file_path ++ e.file_name)] }

/-- `Editor::rename` (`src/editor/mod.rs:229`): `None` pops the last char of
the file name; `Some(c)` appends `c`, or an underscore when `c` is a space
or an apostrophe (character 39). -/
def Editor.rename (e : Editor) (c : Option Char) : Editor :=
  match c with
  | none => { e with file_name := e.file_name.dropRight 1 }
  | some c =>
      if c = ' ' ∨ c = Char.ofNat 39 then { e with file_name := e.file_name ++ "_" }
      else { e with file_name := e.file_name ++ c.toString }

/-- `Editor::toggle_mode` (`src/editor/mod.rs:335`). -/
def toggleMode : Mode → Mode
  | .Normal => .Insert
  | .Insert => .Normal
  | .Rename => .Normal

/-- `Editor::toggle_rename` (`src/editor/mod.rs:344`). -/
def toggleRename : Mode → Mode
  | .Normal => .Rename
  | .Rename => .Normal
  | .Insert => .Normal

/-- The merge of refresh orders inside `Command::CommandBlock`
(`src/editor/mod.rs:316`): `None` is an identity on either side, two `Lines`
sets merge by union, any other pair becomes `AllLines`. -/
def RefreshOrder.merge : RefreshOrder → RefreshOrder → RefreshOrder
  | .None, r => r
  | r, .None => r
  | .Lines s1, .Lines s2 => .Lines (s1 ∪ s2)
  | _, _ => .AllLines

mutual

/-- `Editor::execute` (`src/editor/mod.rs:251`): run one command, producing
the refresh order.  `none` is a panic (reachable only through `DeleteLine`
with the cursor line out of bounds, and through the usize subtraction
`view.cursor.1 - 1` of the `InsertNewLine` intent, which is modelled as the
agreeing `Nat` subtraction because the row is positive whenever that branch
is reached from a reachable state). -/
def Editor.execute (e : Editor) : Command → Option (Editor × RefreshOrder)
  | .Quit => some (e, .Terminate)
  | .Move dx dy =>
      let p := View.navigate e.view dx dy
      some ({ e with view := p.1 }, if p.2 then .AllLines else .CursorPos)
  | .Save => some (Editor.save e, .StatusBar)
  | .Rename c => some (Editor.rename e c, .StatusBar)
  | .ToggleMode => some ({ e with mode := toggleMode e.mode }, .StatusBar)
  | .ToggleRename => some ({ e with mode := toggleRename e.mode }, .StatusBar)
  | .Insert c =>
      let p := View.insert e.view c
      some ({ e with view := p.1 },
        if p.2 then .AllLines else .Lines {p.1.cursor.2})
  | .InsertNewLine =>
      let p := View.insert_new_line e.view
      some ({ e with view := p.1 },
        if p.2 then .AllLines else .Lines (Finset.Ico (p.1.cursor.2 - 1) p.1.height))
  | .Delete =>
      let p := View.delete e.view
      some ({ e with view := p.1 },
        if p.2 then .AllLines else .Lines (Finset.Ico p.1.cursor.2 p.1.height))
  | .DeleteLine =>
      match View.delete_line e.view with
      | none => none
      | some p => some ({ e with view := p.1 }, .AllLines)
  | .CommandBlock cmds => Editor.execList e RefreshOrder.None cmds
termination_by c => sizeOf c

/-- The fold inside `Command::CommandBlock` (`src/editor/mod.rs:313`):
execute the children left to right, merging the refresh orders with ⊕,
starting from `None`. -/
def Editor.execList (e : Editor) (acc : RefreshOrder) :
    List Command → Option (Editor × RefreshOrder)
  | [] => some (e, acc)
  | c :: cs =>
      match Editor.execute e c with
      | none => none
      | some p => Editor.execList p.1 (RefreshOrder.merge acc p.2) cs
termination_by cs => sizeOf cs

end

/-- Executing a list of commands one by one, left to right, collecting each
command's refresh order (the right-hand side of claim C7). -/
def Editor.execSeq (e : Editor) : List Command → Option (Editor × List RefreshOrder)
  | [] => some (e, [])
  | c :: cs =>
      match Editor.execute e c with
      | none => none
      | some p =>
          match Editor.execSeq p.1 cs with
          | none => none
          | some q => some (q.1, p.2 :: q.2)

/-- Flatten nested `CommandBlock`s into a flat command list. -/
def flattenCmds : List Command → List Command
  | [] => []
  | Command.CommandBlock cs :: rest => flattenCmds cs ++ flattenCmds rest
  | c :: rest => c :: flattenCmds rest
termination_by cs => sizeOf cs

theorem merge_none_left (r : RefreshOrder) :
    RefreshOrder.merge RefreshOrder.None r = r := by
  cases r <;> rfl

theorem merge_none_right (r : RefreshOrder) :
    RefreshOrder.merge r RefreshOrder.None = r := by
  cases r <;> rfl

theorem merge_assoc (a b c : RefreshOrder) :
    RefreshOrder.merge (RefreshOrder.merge a b) c
      = RefreshOrder.merge a (RefreshOrder.merge b c) := by
  cases a <;> cases b <;> cases c <;>
    simp [RefreshOrder.merge, Finset.union_assoc]

theorem merge_comm (a b : RefreshOrder) :
    RefreshOrder.merge a b = RefreshOrder.merge b a := by
  cases a <;> cases b <;> simp [RefreshOrder.merge, Finset.union_comm]

theorem execList_eq_execSeq : ∀ (cmds : List Command) (e : Editor) (acc : RefreshOrder),
    Editor.execList e acc cmds
      = (Editor.execSeq e cmds).map
          (fun p => (p.1, p.2.foldl RefreshOrder.merge acc)) := by
  intro cmds
  induction cmds with
  | nil => intro e acc; simp [Editor.execList, Editor.execSeq]
  | cons c cs ih =>
    intro e acc
    cases hc : Editor.execute e c with
    | none => simp [Editor.execList, Editor.execSeq, hc]
    | some p =>
      simp only [Editor.execList, Editor.execSeq, hc, ih]
      cases hq : Editor.execSeq p.1 cs with
      | none => simp [hq]
      | some q => simp [hq, List.foldl_cons]

theorem execList_acc : ∀ (cs : List Command) (e : Editor) (a b : RefreshOrder),
    Editor.execList e (RefreshOrder.merge a b) cs
      = (Editor.execList e b cs).map (fun p => (p.1, RefreshOrder.merge a p.2)) := by
  intro cs
  induction cs with
  | nil => intro e a b; simp [Editor.execList]
  | cons c cs ih =>
    intro e a b
    cases hc : Editor.execute e c with
    | none => simp [Editor.execList, hc]
    | some p =>
      simp only [Editor.execList, hc]
      rw [merge_assoc]
      exact ih p.1 a (RefreshOrder.merge b p.2)

theorem execList_append : ∀ (l1 l2 : List Command) (e : Editor) (acc : RefreshOrder),
    Editor.execList e acc (l1 ++ l2)
      = match Editor.execList e acc l1 with
        | none => none
        | some p => Editor.execList p.1 p.2 l2 := by
  intro l1
  induction l1 with
  | nil => intro l2 e acc; simp [Editor.execList]
  | cons c cs ih =>
    intro l2 e acc
    cases hc : Editor.execute e c with
    | none => simp [List.cons_append, Editor.execList, hc]
    | some p =>
      simp only [List.cons_append, Editor.execList, hc]
      exact ih l2 p.1 _

theorem execList_flatten (cmds : List Command) : ∀ (e : Editor) (acc : RefreshOrder),
    Editor.execList e acc (flattenCmds cmds) = Editor.execList e acc cmds := by
  induction cmds using flattenCmds.induct with
  | case1 => intro e acc; rw [flattenCmds]
  | case2 cs rest ih1 ih2 =>
    intro e acc
    rw [flattenCmds, execList_append, ih1]
    have hacc : Editor.execList e acc cs
        = (Editor.execList e RefreshOrder.None cs).map
            (fun p => (p.1, RefreshOrder.merge acc p.2)) := by
      have h := execList_acc cs e acc RefreshOrder.None
      rwa [merge_none_right] at h
    have hexec : Editor.execute e (Command.CommandBlock cs)
        = Editor.execList e RefreshOrder.None cs := by
      simp only [Editor.execute]
    rw [hacc]
    cases hq : Editor.execList e RefreshOrder.None cs with
    | none => simp [Editor.execList, hexec, hq]
    | some q =>
      simp only [Option.map_some']
      simp only [Editor.execList, hexec, hq]
      exact ih2 q.1 (RefreshOrder.merge acc q.2)
  | case3 c rest hne ih =>
    intro e acc
    rw [flattenCmds.eq_3 c rest hne]
    cases hc : Editor.execute e c with
    | none => simp [Editor.execList, hc]
    | some p =>
      simp only [Editor.execList, hc]
      exact ih p.1 _

/-- Claim C7.  Executing `Block(cmds)` yields the same final editor state as
executing the commands one by one left to right, with a refresh intent equal
to the ⊕-fold (`RefreshOrder.merge`, starting from `None`) of the children's
intents; nesting blocks does not change the semantics (a block containing
blocks is equivalent to the flattened block); and the ⊕ of the code is
exactly the claimed one: `None` is an identity (on both sides — ⊕ is
commutative, so the unordered reading of `None ⊕ x = x` is the code's), two
`Lines` merge by union, and any other pair of intents gives `AllLines`. -/
theorem C7_block_semantics :
    (∀ (e : Editor) (cmds : List Command),
      Editor.execute e (Command.CommandBlock cmds)
        = (Editor.execSeq e cmds).map
            (fun p => (p.1, p.2.foldl RefreshOrder.merge RefreshOrder.None))) ∧
    (∀ (e : Editor) (cmds : List Command),
      Editor.execute e (Command.CommandBlock (flattenCmds cmds))
        = Editor.execute e (Command.CommandBlock cmds)) ∧
    (∀ r, RefreshOrder.merge RefreshOrder.None r = r) ∧
    (∀ r, RefreshOrder.merge r RefreshOrder.None = r) ∧
    (∀ a b, RefreshOrder.merge (RefreshOrder.Lines a) (RefreshOrder.Lines b)
        = RefreshOrder.Lines (a ∪ b)) ∧
    (∀ a b, RefreshOrder.merge a b = RefreshOrder.merge b a) ∧
    (∀ a b, a ≠ RefreshOrder.None → b ≠ RefreshOrder.None →
      (∀ s1 s2, ¬(a = RefreshOrder.Lines s1 ∧ b = RefreshOrder.Lines s2)) →
      RefreshOrder.merge a b = RefreshOrder.AllLines) := by
  refine ⟨?_, ?_, merge_none_left, merge_none_right, fun a b => rfl, merge_comm, ?_⟩
  · intro e cmds
    have hexec : Editor.execute e (Command.CommandBlock cmds)
        = Editor.execList e RefreshOrder.None cmds := by
      simp only [Editor.execute]
    rw [hexec, execList_eq_execSeq]
  · intro e cmds
    have h1 : Editor.execute e (Command.CommandBlock (flattenCmds cmds))
        = Editor.execList e RefreshOrder.None (flattenCmds cmds) := by
      simp only [Editor.execute]
    have h2 : Editor.execute e (Command.CommandBlock cmds)
        = Editor.execList e RefreshOrder.None cmds := by
      simp only [Editor.execute]
    rw [h1, h2, execList_flatten]
  · intro a b ha hb hl
    cases a <;> cases b <;>
      first
      | rfl
      | (exact absurd rfl ha)
      | (exact absurd rfl hb)
      | (exact absurd ⟨rfl, rfl⟩ (hl _ _))

/-- Claim C7, witness: the merge rule applied to the pair
`(CursorPos, StatusBar)`, which is neither a `None` pair nor a `Lines`
pair, hence merges to `AllLines`. -/
theorem C7_witness :
    RefreshOrder.merge RefreshOrder.CursorPos RefreshOrder.StatusBar
      = RefreshOrder.AllLines :=
  C7_block_semantics.2.2.2.2.2.2 RefreshOrder.CursorPos RefreshOrder.StatusBar
    (by decide) (by decide) (fun s1 s2 h => RefreshOrder.noConfusion h.1)

/-! ### Claim C10 — `Save` with an empty file name -/

/-- Claim C10.  When the current file name is the empty string (e.g. after
`Rename(None)` deleted every character), executing `Save` writes nothing to
the filesystem — neither the `<path>.tmp` file nor the target is created,
the effects log is untouched — and the editor state is unchanged; the call
still returns the `StatusBar` refresh intent. -/
theorem C10_save_empty_name (e : Editor) (h : e.file_name = "") :
    Editor.execute e Command.Save = some (e, RefreshOrder.StatusBar) := by
  simp only [Editor.execute, Editor.save, if_pos h]

/-- Claim C10, witness: a concrete editor whose file name is empty. -/
theorem C10_witness :
    Editor.execute
        { file_path := "./", file_name := "", view := View.init ("a".toList) 1 1,
          mode := Mode.Normal, fs_log := [] } Command.Save
      = some ({ file_path := "./", file_name := "",
                view := View.init ("a".toList) 1 1,
                mode := Mode.Normal, fs_log := [] }, RefreshOrder.StatusBar) :=
  C10_save_empty_name _ rfl

/-! ### Claims C8 and C9 — start-up (`src/main.rs` and `View::new`) -/

/-- The two output streams of the process. -/
inductive OutStream
  | stdout
  | stderr
deriving DecidableEq

/-- Outcome of building the initial view from the file named on the command
line: either the process exits with a status code after printing the given
lines to stderr, or the editor proceeds with a view. -/
inductive OpenOutcome
  | exits (code : Nat) (stderr_lines : List String)
  | proceeds (v : View)
deriving DecidableEq

/-- `View::new` (`src/editor/view/mod.rs:78`), with the result of
`std::fs::read_to_string` passed in (`none`: the read failed).  On success
the view is built over the file contents with tabs replaced
(`File::from_string`); on failure the code prints one line
`Could not read file: <path>` to stderr (`eprintln!`) and calls `exit(1)`. -/
def View.newFromRead (file_path : String) (read_result : Option Text) : OpenOutcome :=
  match read_result with
  | some content => OpenOutcome.proceeds (View.init (File.replaceTabs content) 0 0)
  | none => OpenOutcome.exits 1 ["Could not read file: " ++ file_path]

/-- Claim C8, counterexample.  The claim says that when reading the named
file fails, the editor starts with an empty new buffer and continues (only a
stderr line is emitted).  The code instead exits with status 1 after the
stderr line — no editor starts. -/
theorem C8_counterexample :
    View.newFromRead "foo.txt" none
      = OpenOutcome.exits 1 ["Could not read file: foo.txt"] := by decide

/-- Claim C8 (amended).  If reading the named file fails, the program prints
the single line `Could not read file: <path>` to stderr and exits with
status 1; it does not open an editor.  When the read succeeds, the editor
proceeds with a view over the (tab-normalised) file contents. -/
theorem C8_open_failure_amended (file_path : String) (content : Text) :
    View.newFromRead file_path none
      = OpenOutcome.exits 1 ["Could not read file: " ++ file_path] ∧
    View.newFromRead file_path (some content)
      = OpenOutcome.proceeds (View.init (File.replaceTabs content) 0 0) :=
  ⟨rfl, rfl⟩

/-- `usage` (`src/main.rs:17`): the usage message is printed with `println!`
— stdout — and the process exits with status 1; the program name is
`argv[0]` when present, `"giga"` otherwise. -/
def usage (progname : Option String) : (OutStream × String) × Nat :=
  ((OutStream.stdout,
    "Usage: " ++ (match progname with | some str => str | none => "giga") ++ " [file]"), 1)

/-- The argument check of `main` (`src/main.rs:26`): with more than two
entries in `argv` — i.e. more than one positional argument — call
`usage(argv.get(0))`; otherwise no usage event happens (`none`) and the
editor starts. -/
def mainUsageCheck (args : List String) : Option ((OutStream × String) × Nat) :=
  if 2 < args.length then some (usage args.head?) else none

/-- Claim C9, counterexample.  The claim says the usage line goes to stderr;
the code prints it with `println!`, which writes to STDOUT. -/
theorem C9_counterexample :
    mainUsageCheck ["giga", "a", "b"]
      = some ((OutStream.stdout, "Usage: giga [file]"), 1) ∧
    OutStream.stdout ≠ OutStream.stderr := by decide

/-- Claim C9 (amended).  When the program is invoked with more than one
positional argument it prints `Usage: <prog> [file]` — to STDOUT, not to
stderr — and exits with status 1. -/
theorem C9_usage_amended (args : List String) (h : 2 < args.length) :
    mainUsageCheck args = some (usage args.head?) ∧
    (usage args.head?).1.1 = OutStream.stdout ∧
    (usage args.head?).2 = 1 ∧
    (usage args.head?).1.2 = "Usage: " ++ args.head?.getD "giga" ++ " [file]" := by
  refine ⟨by simp [mainUsageCheck, h], rfl, rfl, ?_⟩
  cases args with
  | nil => simp at h
  | cons a l => rfl

/-- Claim C9, witness: the amended theorem applied to a concrete
three-entry argv. -/
theorem C9_witness :
    mainUsageCheck ["giga", "a", "b"]
        = some (usage (["giga", "a", "b"] : List String).head?) ∧
    (usage (["giga", "a", "b"] : List String).head?).1.1 = OutStream.stdout ∧
    (usage (["giga", "a", "b"] : List String).head?).2 = 1 ∧
    (usage (["giga", "a", "b"] : List String).head?).1.2
      = "Usage: " ++ (["giga", "a", "b"] : List String).head?.getD "giga" ++ " [file]" :=
  C9_usage_amended ["giga", "a", "b"] (by decide)
